import Mathlib

/-!
# Cumulative acknowledgment tracker (`pulsar/cumulative_acks_tracker.go`)

A shallow embedding of the tracker's sequential core: the slice
`trackedMessageList`, the linear scan `getMessageIDIndex`, the two removal
operations, the boundary resolution `getGreatestCumulativeMessageID` and the
request dispatch of `process`.

Modelling decisions.

* `trackingMessageID` is declared outside this file.  It is taken as a
  parameter: a type `α` with decidable equality (the Go comparison
  `*msgID == *c.trackedMessageList[i]` compares the pointed-to values) together
  with a function `ackCumulative : α → Bool` for the method of that name.
  Pointers are identified with the values they point to; nil pointers are not
  identifiers and are not part of the model.
* A Go slice is modelled by its visible elements and its capacity.  Indexing
  and re-slicing are bounds checked as in Go and report a `GoPanic` instead of
  a value when out of range.
* The request channel is modelled by the list of requests in arrival order;
  each loop iteration of `process` is the function `process.step`.
-/

namespace Pulsar

/-- Run-time panics of the Go operations used by the tracker. -/
inductive GoPanic
  | indexOutOfRange
  | sliceBoundsOutOfRange
  | makesliceCapOutOfRange
  deriving DecidableEq, Repr

deriving instance DecidableEq for Except

/-- A Go slice: `elems` are the `len` visible elements, `cap` is the number of
cells of the backing array available from the start of the slice. -/
structure Slice (α : Type) where
  elems : List α
  cap : Nat
  deriving DecidableEq, Repr

/-- Go `len(s)`. -/
def Slice.len {α : Type} (s : Slice α) : Int := (s.elems.length : Int)

/-- Go `make([]T, 0, n)`: panics when the capacity is negative (the upper
limit set by the addressable memory is not modelled). -/
def Slice.make {α : Type} (n : Int) : Except GoPanic (Slice α) :=
  if n < 0 then .error .makesliceCapOutOfRange else .ok { elems := [], cap := n.toNat }

/-- Go `s[i]`: panics unless `0 ≤ i < len(s)`. -/
def Slice.index {α : Type} (s : Slice α) (i : Int) : Except GoPanic α :=
  if i < 0 then .error .indexOutOfRange
  else
    match s.elems[i.toNat]? with
    | some x => .ok x
    | none => .error .indexOutOfRange

/-- Go `s[:hi]`.  Go allows `hi` up to `cap(s)`; re-slicing into the spare
capacity would expose cells of the backing array that are not modelled, so the
model only accepts `0 ≤ hi ≤ len(s)` and reports a panic otherwise. -/
def Slice.sliceTo {α : Type} (s : Slice α) (hi : Int) : Except GoPanic (Slice α) :=
  if hi < 0 ∨ s.len < hi then .error .sliceBoundsOutOfRange
  else .ok { elems := s.elems.take hi.toNat, cap := s.cap }

/-- Go `s[lo:]`: panics unless `0 ≤ lo ≤ len(s)`; the capacity shrinks by `lo`. -/
def Slice.sliceFrom {α : Type} (s : Slice α) (lo : Int) : Except GoPanic (Slice α) :=
  if lo < 0 ∨ s.len < lo then .error .sliceBoundsOutOfRange
  else .ok { elems := s.elems.drop lo.toNat, cap := s.cap - lo.toNat }

/-- Go `append(s, vs...)`: the values are written after the elements of `s`,
in the backing array when they fit into the capacity and in a newly allocated,
sufficiently large array otherwise (the model allocates exactly the needed
number of cells). -/
def Slice.append {α : Type} (s : Slice α) (vs : List α) : Slice α :=
  if s.elems.length + vs.length ≤ s.cap then
    { elems := s.elems ++ vs, cap := s.cap }
  else
    { elems := s.elems ++ vs, cap := s.elems.length + vs.length }

/-- The sequential state of `cumulativeAcksTracker`: the channels and the
logger carry no state of the record. -/
structure cumulativeAcksTracker (α : Type) where
  trackedMessageList : Slice α
  deriving DecidableEq, Repr

/-- The tracked record: the visible elements of `trackedMessageList`. -/
def cumulativeAcksTracker.record {α : Type} (c : cumulativeAcksTracker α) : List α :=
  c.trackedMessageList.elems

/-- The state part of `newCumulativeAcksTracker`:
`trackedMessageList: make([]*trackingMessageID, 0, receiverQueueSize)`. -/
def newCumulativeAcksTracker {α : Type} (receiverQueueSize : Int) :
    Except GoPanic (cumulativeAcksTracker α) := do
  let l ← Slice.make receiverQueueSize
  pure { trackedMessageList := l }

/-- The loop of `getMessageIDIndex`, `for i := 0; i < len(list); i++`: `rest`
holds the elements `list[i:]` still to be compared. -/
def getMessageIDIndex.loop {α : Type} [DecidableEq α] (msgID : α) : List α → Nat → Int
  | [], _ => -1
  | x :: rest, i => if msgID = x then (i : Int) else getMessageIDIndex.loop msgID rest (i + 1)

/-- Go `getMessageIDIndex`: the index of the first entry equal to `msgID`, or `-1`. -/
def getMessageIDIndex {α : Type} [DecidableEq α] (c : cumulativeAcksTracker α) (msgID : α) : Int :=
  getMessageIDIndex.loop msgID c.trackedMessageList.elems 0

/-- Go `removeMessageID`:
`append(c.trackedMessageList[:idx], c.trackedMessageList[idx+1:]...)`. -/
def removeMessageID {α : Type} [DecidableEq α] (c : cumulativeAcksTracker α) (msgID : α) :
    Except GoPanic (cumulativeAcksTracker α × Bool) :=
  let idx := getMessageIDIndex c msgID
  if idx = -1 then .ok (c, false)
  else do
    let front ← c.trackedMessageList.sliceTo idx
    let back ← c.trackedMessageList.sliceFrom (idx + 1)
    pure ({ trackedMessageList := front.append back.elems }, true)

/-- Go `removeUntilMessageID`: `c.trackedMessageList = c.trackedMessageList[idx+1:]`. -/
def removeUntilMessageID {α : Type} [DecidableEq α] (c : cumulativeAcksTracker α) (msgID : α) :
    Except GoPanic (cumulativeAcksTracker α × Bool) :=
  let idx := getMessageIDIndex c msgID
  if idx = -1 then .ok (c, false)
  else do
    let back ← c.trackedMessageList.sliceFrom (idx + 1)
    pure ({ trackedMessageList := back }, true)

/-- Go `getGreatestCumulativeMessageID`; `none` is the nil pointer.  The Go
loop `for idx > 0 { return ... }` returns in its first iteration, so it is the
conditional below. -/
def getGreatestCumulativeMessageID {α : Type} [DecidableEq α] (ackCumulative : α → Bool)
    (c : cumulativeAcksTracker α) (msgID : α) : Except GoPanic (Option α) :=
  let idx := getMessageIDIndex c msgID
  if idx = -1 then .ok none
  else do
    let cur ← c.trackedMessageList.index idx
    if ackCumulative cur then pure (some cur)
    else if idx > 0 then do
      let prev ← c.trackedMessageList.index (idx - 1)
      pure (some prev)
    else pure none

/-- The values sent on `requestCh` (a `chan interface{}`): the four request
types of the file, and `other` for a value of any other dynamic type. -/
inductive Request (α : Type)
  | messagesReceivedReq (msgIDs : List α)
  | ackSentReq (msgID : α)
  | cumulativeAckSentReq (msgID : α)
  | getCumulativeMessageIDReq (msgID : α)
  | other
  deriving DecidableEq, Repr

/-- One iteration of the loop of `process` on a received request: the new
state and the values sent on the request's `ackMsgID` channel. -/
def process.step {α : Type} [DecidableEq α] (ackCumulative : α → Bool)
    (c : cumulativeAcksTracker α) : Request α →
    Except GoPanic (cumulativeAcksTracker α × List (Option α))
  | .messagesReceivedReq msgIDs =>
    pure ({ trackedMessageList := c.trackedMessageList.append msgIDs }, [])
  | .ackSentReq msgID => do
    let r ← removeMessageID c msgID
    pure (r.1, [])
  | .cumulativeAckSentReq msgID => do
    let r ← removeUntilMessageID c msgID
    pure (r.1, [])
  | .getCumulativeMessageIDReq msgID => do
    let r ← getGreatestCumulativeMessageID ackCumulative c msgID
    pure (c, [r])
  | .other => pure (c, [])

/-- The loop of `process` on the requests received before the close signal, in
arrival order: the final state and all replies sent, in order. -/
def process {α : Type} [DecidableEq α] (ackCumulative : α → Bool) :
    cumulativeAcksTracker α → List (Request α) →
    Except GoPanic (cumulativeAcksTracker α × List (Option α))
  | c, [] => pure (c, [])
  | c, req :: reqs => do
    let r ← process.step ackCumulative c req
    let rs ← process ackCumulative r.1 reqs
    pure (rs.1, r.2 ++ rs.2)

/-- Specification side: `msgID` has its first occurrence in `l` at position `i`. -/
def FirstAt {α : Type} (l : List α) (msgID : α) (i : Nat) : Prop :=
  l[i]? = some msgID ∧ msgID ∉ l.take i

instance {α : Type} [DecidableEq α] (l : List α) (msgID : α) (i : Nat) :
    Decidable (FirstAt l msgID i) := by
  unfold FirstAt; exact inferInstance

/-- Specification side (claim C3): the entry at the greatest position at or
before `i` for which `ackCumulative` is true, if there is one. -/
def greatestAckableUpTo {α : Type} (ackCumulative : α → Bool) (l : List α) (i : Nat) : Option α :=
  ((l.take (i + 1)).filter ackCumulative).getLast?

/-- Specification side: the concatenation, in arrival order, of the id
sequences carried by the `messagesReceivedReq` requests of `reqs`. -/
def receivedIDs {α : Type} : List (Request α) → List α
  | [] => []
  | .messagesReceivedReq msgIDs :: reqs => msgIDs ++ receivedIDs reqs
  | _ :: reqs => receivedIDs reqs

/-- Sample acknowledgment predicate used in the examples: the identifiers `2`
and `3` are fragments of a batch that is not yet completely consumed. -/
def sampleAck : Nat → Bool := fun n => !(n == 2 || n == 3)

/-- Sample tracker used in the examples. -/
def sampleTracker (l : List Nat) : cumulativeAcksTracker Nat :=
  { trackedMessageList := { elems := l, cap := l.length } }

/-! ## The linear scan -/

theorem loop_of_not_mem {α : Type} [DecidableEq α] (msgID : α) (l : List α) (k : Nat)
    (h : msgID ∉ l) : getMessageIDIndex.loop msgID l k = -1 := by
  induction l generalizing k with
  | nil => rfl
  | cons x rest ih =>
    have hx : msgID ≠ x := fun e => h (by simp [e])
    have hr : msgID ∉ rest := fun e => h (by simp [e])
    simp [getMessageIDIndex.loop, hx, ih (k + 1) hr]

theorem loop_of_firstAt {α : Type} [DecidableEq α] (msgID : α) (l : List α) (k i : Nat)
    (h : FirstAt l msgID i) : getMessageIDIndex.loop msgID l k = ((k + i : Nat) : Int) := by
  induction l generalizing k i with
  | nil => simp [FirstAt] at h
  | cons x rest ih =>
    obtain ⟨hi, hfirst⟩ := h
    cases i with
    | zero =>
      simp at hi
      simp [getMessageIDIndex.loop, hi]
    | succ j =>
      have hx : msgID ≠ x := fun e => hfirst (by simp [e])
      have hr : FirstAt rest msgID j := by
        refine ⟨by simpa using hi, fun e => hfirst ?_⟩
        simp [e]
      simp only [getMessageIDIndex.loop, hx, if_false, ih (k + 1) j hr]
      congr 1
      omega

theorem firstAt_lt {α : Type} {l : List α} {msgID : α} {i : Nat} (h : FirstAt l msgID i) :
    i < l.length := by
  have := h.1
  by_contra hc
  rw [List.getElem?_eq_none (by omega)] at this
  cases this

theorem firstAt_mem {α : Type} {l : List α} {msgID : α} {i : Nat} (h : FirstAt l msgID i) :
    msgID ∈ l := List.getElem?_mem h.1

theorem exists_firstAt {α : Type} [DecidableEq α] {l : List α} {msgID : α} (h : msgID ∈ l) :
    ∃ i, FirstAt l msgID i := by
  induction l with
  | nil => cases h
  | cons x rest ih =>
    by_cases hx : msgID = x
    · exact ⟨0, by simp [FirstAt, hx]⟩
    · have hr : msgID ∈ rest := by
        rcases List.mem_cons.1 h with e | e
        · exact absurd e hx
        · exact e
      obtain ⟨j, hj, hfirst⟩ := ih hr
      refine ⟨j + 1, by simpa using hj, ?_⟩
      simp only [List.take_succ_cons, List.mem_cons, not_or]
      exact ⟨hx, hfirst⟩

theorem firstAt_unique {α : Type} {l : List α} {msgID : α} {i j : Nat}
    (hi : FirstAt l msgID i) (hj : FirstAt l msgID j) : i = j := by
  by_contra hne
  rcases Nat.lt_or_gt_of_ne hne with hlt | hlt
  · exact hj.2 (List.getElem?_mem (by rw [List.getElem?_take_of_lt hlt]; exact hi.1))
  · exact hi.2 (List.getElem?_mem (by rw [List.getElem?_take_of_lt hlt]; exact hj.1))

theorem getMessageIDIndex_of_not_mem {α : Type} [DecidableEq α] (c : cumulativeAcksTracker α)
    (msgID : α) (h : msgID ∉ c.record) : getMessageIDIndex c msgID = -1 :=
  loop_of_not_mem msgID _ 0 h

theorem getMessageIDIndex_of_firstAt {α : Type} [DecidableEq α] (c : cumulativeAcksTracker α)
    (msgID : α) (i : Nat) (h : FirstAt c.record msgID i) :
    getMessageIDIndex c msgID = (i : Int) := by
  have := loop_of_firstAt msgID c.record 0 i h
  simpa [getMessageIDIndex, cumulativeAcksTracker.record] using this

/-! ## Slice operations at in-range positions -/

theorem Slice.index_of_getElem? {α : Type} (s : Slice α) (i : Nat) (x : α)
    (h : s.elems[i]? = some x) : s.index (i : Int) = .ok x := by
  have hneg : ¬ ((i : Int) < 0) := by omega
  simp [Slice.index, hneg, h]

theorem Slice.sliceTo_of_le {α : Type} (s : Slice α) (i : Nat) (h : i ≤ s.elems.length) :
    s.sliceTo (i : Int) = .ok { elems := s.elems.take i, cap := s.cap } := by
  have hb : ¬ ((i : Int) < 0 ∨ s.len < (i : Int)) := by
    simp only [Slice.len]; omega
  simp [Slice.sliceTo, hb]

theorem Slice.sliceFrom_of_le {α : Type} (s : Slice α) (i : Nat) (h : i ≤ s.elems.length) :
    s.sliceFrom (i : Int) = .ok { elems := s.elems.drop i, cap := s.cap - i } := by
  have hb : ¬ ((i : Int) < 0 ∨ s.len < (i : Int)) := by
    simp only [Slice.len]; omega
  simp [Slice.sliceFrom, hb]

theorem Slice.elems_append {α : Type} (s : Slice α) (vs : List α) :
    (s.append vs).elems = s.elems ++ vs := by
  unfold Slice.append; split <;> rfl

/-! ## The operations at a known scan result -/

theorem getGreatest_of_firstAt {α : Type} [DecidableEq α] (ackCumulative : α → Bool)
    (c : cumulativeAcksTracker α) (msgID : α) (i : Nat) (h : FirstAt c.record msgID i) :
    getGreatestCumulativeMessageID ackCumulative c msgID =
      .ok (if ackCumulative msgID then some msgID
           else if 0 < i then c.record[i - 1]? else none) := by
  have hidx := getMessageIDIndex_of_firstAt c msgID i h
  have hne : ¬ ((i : Int) = -1) := by omega
  have hcur := Slice.index_of_getElem? c.trackedMessageList i msgID h.1
  have hlt := firstAt_lt h
  unfold getGreatestCumulativeMessageID
  simp only [hidx, hne, if_false, hcur]
  by_cases hac : ackCumulative msgID = true
  · simp [hac, bind, Except.bind, pure, Except.pure]
  · by_cases hpos : 0 < i
    · have hlt2 : i - 1 < c.trackedMessageList.elems.length := by
        have : i < c.trackedMessageList.elems.length := hlt
        omega
      have hcast : ((i : Int) - 1) = ((i - 1 : Nat) : Int) := by omega
      have hprev : c.trackedMessageList.index ((i : Int) - 1) =
          .ok (c.trackedMessageList.elems[i - 1]) := by
        rw [hcast]
        exact Slice.index_of_getElem? c.trackedMessageList (i - 1) _
          (List.getElem?_eq_getElem hlt2)
      have hposI : (i : Int) > 0 := by omega
      have hrec : c.record[i - 1]? = some (c.trackedMessageList.elems[i - 1]) :=
        List.getElem?_eq_getElem hlt2
      simp only [hac, hpos, hposI, hprev, hrec, bind, Except.bind, pure, Except.pure, if_true,
        if_false]
      simp
    · have hposI : ¬ ((i : Int) > 0) := by omega
      simp [hac, hpos, hposI, bind, Except.bind, pure, Except.pure]

theorem getGreatest_of_not_mem {α : Type} [DecidableEq α] (ackCumulative : α → Bool)
    (c : cumulativeAcksTracker α) (msgID : α) (h : msgID ∉ c.record) :
    getGreatestCumulativeMessageID ackCumulative c msgID = .ok none := by
  simp [getGreatestCumulativeMessageID, getMessageIDIndex_of_not_mem c msgID h]

theorem take_succ_of_getElem? {α : Type} (l : List α) (i : Nat) (x : α) (h : l[i]? = some x) :
    l.take (i + 1) = l.take i ++ [x] := by
  rw [List.take_succ, h]; rfl

/-! ## Boundary resolution -/

/-- C1: for a candidate occurring in the record whose `ackCumulative` is false,
`getGreatestCumulativeMessageID` returns the entry immediately before the
candidate's first occurrence when that occurrence is not at position 0, and
nil when it is at position 0. -/
theorem C1_incomplete_candidate_falls_back_one_entry {α : Type} [DecidableEq α]
    (ackCumulative : α → Bool) (c : cumulativeAcksTracker α) (msgID : α)
    (hmem : msgID ∈ c.record) (hac : ackCumulative msgID = false) :
    ∃ i, FirstAt c.record msgID i ∧
      (i = 0 → getGreatestCumulativeMessageID ackCumulative c msgID = .ok none) ∧
      (0 < i → ∃ p, c.record[i - 1]? = some p ∧
        getGreatestCumulativeMessageID ackCumulative c msgID = .ok (some p)) := by
  obtain ⟨i, hi⟩ := exists_firstAt hmem
  have hres := getGreatest_of_firstAt ackCumulative c msgID i hi
  refine ⟨i, hi, ?_, ?_⟩
  · intro h0
    simp [hres, hac, h0]
  · intro hpos
    have hlt : i - 1 < c.record.length := by
      have := firstAt_lt hi
      omega
    refine ⟨c.record[i - 1], List.getElem?_eq_getElem hlt, ?_⟩
    simp [hres, hac, hpos, List.getElem?_eq_getElem hlt]

theorem C1_witness :
    2 ∈ (sampleTracker [1, 2, 3]).record ∧ sampleAck 2 = false ∧
    ∃ i, FirstAt (sampleTracker [1, 2, 3]).record 2 i ∧
      (i = 0 → getGreatestCumulativeMessageID sampleAck (sampleTracker [1, 2, 3]) 2 = .ok none) ∧
      (0 < i → ∃ p, (sampleTracker [1, 2, 3]).record[i - 1]? = some p ∧
        getGreatestCumulativeMessageID sampleAck (sampleTracker [1, 2, 3]) 2 = .ok (some p)) :=
  ⟨by decide, by decide,
    C1_incomplete_candidate_falls_back_one_entry sampleAck (sampleTracker [1, 2, 3]) 2
      (by decide) (by decide)⟩

/-- C2, as stated, fails: on the record `[1, 2, 3]` where `2` and `3` cannot be
acknowledged cumulatively, the candidate `3` resolves to `2`, an identifier
whose `ackCumulative` is false. -/
theorem C2_counterexample :
    getGreatestCumulativeMessageID sampleAck (sampleTracker [1, 2, 3]) 3 = .ok (some 2) ∧
    sampleAck 2 = false := by
  decide

/-- C2 (amended): whenever `getGreatestCumulativeMessageID` returns an
identifier, either it is the candidate itself and `ackCumulative` is true for
it, or `ackCumulative` is false for the candidate and the identifier is the
entry immediately before the candidate's first occurrence (whose
`ackCumulative` is not consulted). -/
theorem C2_returned_is_ackable_candidate_or_preceding_entry {α : Type} [DecidableEq α]
    (ackCumulative : α → Bool) (c : cumulativeAcksTracker α) (msgID r : α)
    (hret : getGreatestCumulativeMessageID ackCumulative c msgID = .ok (some r)) :
    (r = msgID ∧ ackCumulative r = true) ∨
    (ackCumulative msgID = false ∧
      ∃ i, 0 < i ∧ FirstAt c.record msgID i ∧ c.record[i - 1]? = some r) := by
  by_cases hmem : msgID ∈ c.record
  · obtain ⟨i, hi⟩ := exists_firstAt hmem
    rw [getGreatest_of_firstAt ackCumulative c msgID i hi] at hret
    by_cases hac : ackCumulative msgID = true
    · left
      simp [hac] at hret
      exact ⟨hret.symm, hret ▸ hac⟩
    · right
      have hac2 : ackCumulative msgID = false := by simpa using hac
      by_cases hpos : 0 < i
      · simp [hac2, hpos] at hret
        exact ⟨hac2, i, hpos, hi, hret⟩
      · simp [hac2, hpos] at hret
  · rw [getGreatest_of_not_mem ackCumulative c msgID hmem] at hret
    simp at hret

theorem C2_witness :
    getGreatestCumulativeMessageID sampleAck (sampleTracker [1, 2, 3]) 2 = .ok (some 1) ∧
    ((1 = 2 ∧ sampleAck 1 = true) ∨
      (sampleAck 2 = false ∧
        ∃ i, 0 < i ∧ FirstAt (sampleTracker [1, 2, 3]).record 2 i ∧
          (sampleTracker [1, 2, 3]).record[i - 1]? = some 1)) :=
  ⟨by decide,
    C2_returned_is_ackable_candidate_or_preceding_entry sampleAck (sampleTracker [1, 2, 3]) 2 1
      (by decide)⟩

/-- C3, as stated, fails: on the record `[1, 2, 3, 4]` where `2` and `3` cannot
be acknowledged cumulatively, the candidate `3` (first occurrence at position
2) resolves to `2`, while the entry at the greatest position at or before 2 with
`ackCumulative` true is `1`; and on the record `[2, 3]` the candidate `3`
resolves to `2` although no entry at or before it has `ackCumulative` true. -/
theorem C3_counterexample :
    (FirstAt (sampleTracker [1, 2, 3, 4]).record 3 2 ∧
      getGreatestCumulativeMessageID sampleAck (sampleTracker [1, 2, 3, 4]) 3 = .ok (some 2) ∧
      greatestAckableUpTo sampleAck (sampleTracker [1, 2, 3, 4]).record 2 = some 1) ∧
    (FirstAt (sampleTracker [2, 3]).record 3 1 ∧
      getGreatestCumulativeMessageID sampleAck (sampleTracker [2, 3]) 3 = .ok (some 2) ∧
      greatestAckableUpTo sampleAck (sampleTracker [2, 3]).record 1 = none) := by
  decide

/-- C3 (amended): for a candidate whose first occurrence is at position `i`,
`getGreatestCumulativeMessageID` returns the candidate when its `ackCumulative`
is true, otherwise the entry at position `i - 1` when `i > 0` (without
consulting that entry's `ackCumulative`); it returns nil exactly when `i = 0`
and `ackCumulative` is false for the candidate; and whenever the returned entry
has `ackCumulative` true it is the entry at the greatest position at or before
`i` for which `ackCumulative` is true. -/
theorem C3_resolution_within_one_step {α : Type} [DecidableEq α]
    (ackCumulative : α → Bool) (c : cumulativeAcksTracker α) (msgID : α)
    (hmem : msgID ∈ c.record) :
    ∃ i, FirstAt c.record msgID i ∧
      getGreatestCumulativeMessageID ackCumulative c msgID =
        .ok (if ackCumulative msgID then some msgID
             else if 0 < i then c.record[i - 1]? else none) ∧
      (getGreatestCumulativeMessageID ackCumulative c msgID = .ok none ↔
        (i = 0 ∧ ackCumulative msgID = false)) ∧
      (∀ r, getGreatestCumulativeMessageID ackCumulative c msgID = .ok (some r) →
        ackCumulative r = true → greatestAckableUpTo ackCumulative c.record i = some r) := by
  obtain ⟨i, hi⟩ := exists_firstAt hmem
  have hres := getGreatest_of_firstAt ackCumulative c msgID i hi
  have hlt := firstAt_lt hi
  have htake := take_succ_of_getElem? c.record i msgID hi.1
  refine ⟨i, hi, hres, ?_, ?_⟩
  · rw [hres]
    by_cases hac : ackCumulative msgID = true
    · simp [hac]
    · have hac2 : ackCumulative msgID = false := by simpa using hac
      by_cases hpos : 0 < i
      · have hlt2 : i - 1 < c.record.length := by omega
        have hne : i ≠ 0 := by omega
        simp [hac2, hpos, hne, List.getElem?_eq_getElem hlt2]
      · have h0 : i = 0 := by omega
        simp [hac2, h0]
  · intro r hr hacr
    rw [hres] at hr
    by_cases hac : ackCumulative msgID = true
    · simp [hac] at hr
      subst hr
      simp [greatestAckableUpTo, htake, List.filter_append, hac]
    · have hac2 : ackCumulative msgID = false := by simpa using hac
      by_cases hpos : 0 < i
      · simp [hac2, hpos] at hr
        have hprev := take_succ_of_getElem? c.record (i - 1) r hr
        have hsucc : i - 1 + 1 = i := by omega
        rw [hsucc] at hprev
        simp [greatestAckableUpTo, htake, hprev, List.filter_append, hac2, hacr]
      · simp [hac2, hpos] at hr

theorem C3_witness :
    2 ∈ (sampleTracker [4, 1, 2, 3]).record ∧
    ∃ i, FirstAt (sampleTracker [4, 1, 2, 3]).record 2 i ∧
      getGreatestCumulativeMessageID sampleAck (sampleTracker [4, 1, 2, 3]) 2 =
        .ok (if sampleAck 2 then some 2
             else if 0 < i then (sampleTracker [4, 1, 2, 3]).record[i - 1]? else none) ∧
      (getGreatestCumulativeMessageID sampleAck (sampleTracker [4, 1, 2, 3]) 2 = .ok none ↔
        (i = 0 ∧ sampleAck 2 = false)) ∧
      (∀ r, getGreatestCumulativeMessageID sampleAck (sampleTracker [4, 1, 2, 3]) 2 =
          .ok (some r) →
        sampleAck r = true →
        greatestAckableUpTo sampleAck (sampleTracker [4, 1, 2, 3]).record i = some r) :=
  ⟨by decide, C3_resolution_within_one_step sampleAck (sampleTracker [4, 1, 2, 3]) 2 (by decide)⟩

/-- C4: for a candidate occurring in the record whose `ackCumulative` is true,
`getGreatestCumulativeMessageID` returns the candidate itself, the entry at its
first occurrence, whatever precedes or follows it. -/
theorem C4_complete_candidate_is_returned {α : Type} [DecidableEq α]
    (ackCumulative : α → Bool) (c : cumulativeAcksTracker α) (msgID : α)
    (hmem : msgID ∈ c.record) (hac : ackCumulative msgID = true) :
    ∃ i, FirstAt c.record msgID i ∧ c.record[i]? = some msgID ∧
      getGreatestCumulativeMessageID ackCumulative c msgID = .ok (some msgID) := by
  obtain ⟨i, hi⟩ := exists_firstAt hmem
  refine ⟨i, hi, hi.1, ?_⟩
  simp [getGreatest_of_firstAt ackCumulative c msgID i hi, hac]

theorem C4_witness :
    1 ∈ (sampleTracker [4, 1, 2, 1]).record ∧ sampleAck 1 = true ∧
    ∃ i, FirstAt (sampleTracker [4, 1, 2, 1]).record 1 i ∧
      (sampleTracker [4, 1, 2, 1]).record[i]? = some 1 ∧
      getGreatestCumulativeMessageID sampleAck (sampleTracker [4, 1, 2, 1]) 1 = .ok (some 1) :=
  ⟨by decide, by decide,
    C4_complete_candidate_is_returned sampleAck (sampleTracker [4, 1, 2, 1]) 1
      (by decide) (by decide)⟩

/-- C5: for a candidate that does not occur in the record, in particular on
the empty record, `getGreatestCumulativeMessageID` returns nil, whatever
`ackCumulative` says about the candidate. -/
theorem C5_absent_candidate_resolves_to_nil {α : Type} [DecidableEq α]
    (ackCumulative : α → Bool) (c : cumulativeAcksTracker α) (msgID : α) :
    (msgID ∉ c.record → getGreatestCumulativeMessageID ackCumulative c msgID = .ok none) ∧
    (c.record = [] → getGreatestCumulativeMessageID ackCumulative c msgID = .ok none) := by
  refine ⟨getGreatest_of_not_mem ackCumulative c msgID, fun h => ?_⟩
  exact getGreatest_of_not_mem ackCumulative c msgID (by simp [h])

theorem C5_witness :
    (5 ∉ (sampleTracker [1, 2, 3]).record ∧
      getGreatestCumulativeMessageID sampleAck (sampleTracker [1, 2, 3]) 5 = .ok none) ∧
    ((sampleTracker []).record = [] ∧
      getGreatestCumulativeMessageID sampleAck (sampleTracker []) 2 = .ok none) :=
  ⟨⟨by decide, (C5_absent_candidate_resolves_to_nil sampleAck (sampleTracker [1, 2, 3]) 5).1
      (by decide)⟩,
   ⟨rfl, (C5_absent_candidate_resolves_to_nil sampleAck (sampleTracker []) 2).2 rfl⟩⟩

/-! ## Removal -/

theorem erase_of_firstAt {α : Type} [DecidableEq α] (l : List α) (msgID : α) (i : Nat)
    (h : FirstAt l msgID i) : l.erase msgID = l.take i ++ l.drop (i + 1) := by
  induction l generalizing i with
  | nil => simp [FirstAt] at h
  | cons x rest ih =>
    obtain ⟨hi, hfirst⟩ := h
    cases i with
    | zero =>
      simp at hi
      simp [hi]
    | succ j =>
      have hx : x ≠ msgID := fun e => hfirst (by simp [e])
      have hr : FirstAt rest msgID j := by
        refine ⟨by simpa using hi, fun e => hfirst ?_⟩
        simp [e]
      simp [List.erase_cons, hx, ih j hr]

theorem firstAt_of_nodup {α : Type} (l : List α) (msgID : α) (i : Nat)
    (hnd : l.Nodup) (hi : l[i]? = some msgID) : FirstAt l msgID i := by
  refine ⟨hi, ?_⟩
  induction l generalizing i with
  | nil => simp at hi
  | cons x rest ih =>
    cases i with
    | zero => simp
    | succ j =>
      have hj : rest[j]? = some msgID := by simpa using hi
      obtain ⟨hx, hrest⟩ := List.nodup_cons.1 hnd
      have hne : msgID ≠ x := fun e => hx (e ▸ List.getElem?_mem hj)
      simp only [List.take_succ_cons, List.mem_cons, not_or]
      exact ⟨hne, ih j hrest hj⟩

theorem removeUntil_of_firstAt {α : Type} [DecidableEq α] (c : cumulativeAcksTracker α)
    (msgID : α) (i : Nat) (h : FirstAt c.record msgID i) :
    removeUntilMessageID c msgID =
      .ok ({ trackedMessageList :=
              { elems := c.record.drop (i + 1), cap := c.trackedMessageList.cap - (i + 1) } },
           true) := by
  have hidx := getMessageIDIndex_of_firstAt c msgID i h
  have hne : ¬ ((i : Int) = -1) := by omega
  have hlt : i + 1 ≤ c.trackedMessageList.elems.length := firstAt_lt h
  have hback := Slice.sliceFrom_of_le c.trackedMessageList (i + 1) hlt
  have hcast : ((i : Int) + 1) = ((i + 1 : Nat) : Int) := by omega
  unfold removeUntilMessageID
  simp only [hidx, hne, if_false]
  rw [hcast, hback]
  rfl

theorem removeUntil_of_not_mem {α : Type} [DecidableEq α] (c : cumulativeAcksTracker α)
    (msgID : α) (h : msgID ∉ c.record) : removeUntilMessageID c msgID = .ok (c, false) := by
  simp [removeUntilMessageID, getMessageIDIndex_of_not_mem c msgID h]

theorem removeMessageID_of_firstAt {α : Type} [DecidableEq α] (c : cumulativeAcksTracker α)
    (msgID : α) (i : Nat) (h : FirstAt c.record msgID i) :
    ∃ c2, removeMessageID c msgID = .ok (c2, true) ∧
      c2.record = c.record.take i ++ c.record.drop (i + 1) := by
  have hidx := getMessageIDIndex_of_firstAt c msgID i h
  have hne : ¬ ((i : Int) = -1) := by omega
  have hlt : i + 1 ≤ c.trackedMessageList.elems.length := firstAt_lt h
  have hfront := Slice.sliceTo_of_le c.trackedMessageList i (by omega)
  have hback := Slice.sliceFrom_of_le c.trackedMessageList (i + 1) hlt
  have hcast : ((i : Int) + 1) = ((i + 1 : Nat) : Int) := by omega
  unfold removeMessageID
  simp only [hidx, hne, if_false]
  rw [hcast, hback, hfront]
  refine ⟨_, rfl, ?_⟩
  simp [cumulativeAcksTracker.record, Slice.elems_append]

theorem removeMessageID_of_not_mem {α : Type} [DecidableEq α] (c : cumulativeAcksTracker α)
    (msgID : α) (h : msgID ∉ c.record) : removeMessageID c msgID = .ok (c, false) := by
  simp [removeMessageID, getMessageIDIndex_of_not_mem c msgID h]

theorem removeMessageID_of_mem {α : Type} [DecidableEq α] (c : cumulativeAcksTracker α)
    (msgID : α) (h : msgID ∈ c.record) :
    ∃ c2, removeMessageID c msgID = .ok (c2, true) ∧ c2.record = c.record.erase msgID := by
  obtain ⟨i, hi⟩ := exists_firstAt h
  obtain ⟨c2, hrm, hrec⟩ := removeMessageID_of_firstAt c msgID i hi
  exact ⟨c2, hrm, by rw [hrec, erase_of_firstAt _ msgID i hi]⟩

/-- C6: when `msgID` occurs in the record with first occurrence at position
`i`, `removeUntilMessageID` returns true and leaves exactly the entries at
positions `i + 1` and later, in their order, so that `len - i - 1` entries
remain; when `msgID` does not occur, it returns false and changes nothing. -/
theorem C6_removeUntil_keeps_entries_after_first_occurrence {α : Type} [DecidableEq α]
    (c : cumulativeAcksTracker α) (msgID : α) :
    (msgID ∈ c.record →
      ∃ i c2, FirstAt c.record msgID i ∧ removeUntilMessageID c msgID = .ok (c2, true) ∧
        c2.record = c.record.drop (i + 1) ∧
        (∀ k, c2.record[k]? = c.record[i + 1 + k]?) ∧
        c2.record.length = c.record.length - i - 1) ∧
    (msgID ∉ c.record → removeUntilMessageID c msgID = .ok (c, false)) := by
  refine ⟨fun hmem => ?_, removeUntil_of_not_mem c msgID⟩
  obtain ⟨i, hi⟩ := exists_firstAt hmem
  refine ⟨i, _, hi, removeUntil_of_firstAt c msgID i hi, rfl, ?_, ?_⟩
  · intro k
    simp [cumulativeAcksTracker.record, List.getElem?_drop]
  · simp [cumulativeAcksTracker.record]
    omega

theorem C6_witness :
    (2 ∈ (sampleTracker [1, 2, 3, 2, 4]).record ∧
      ∃ i c2, FirstAt (sampleTracker [1, 2, 3, 2, 4]).record 2 i ∧
        removeUntilMessageID (sampleTracker [1, 2, 3, 2, 4]) 2 = .ok (c2, true) ∧
        c2.record = (sampleTracker [1, 2, 3, 2, 4]).record.drop (i + 1) ∧
        (∀ k, c2.record[k]? = (sampleTracker [1, 2, 3, 2, 4]).record[i + 1 + k]?) ∧
        c2.record.length = (sampleTracker [1, 2, 3, 2, 4]).record.length - i - 1) ∧
    (7 ∉ (sampleTracker [1, 2, 3, 2, 4]).record ∧
      removeUntilMessageID (sampleTracker [1, 2, 3, 2, 4]) 7 =
        .ok (sampleTracker [1, 2, 3, 2, 4], false)) :=
  ⟨⟨by decide,
      (C6_removeUntil_keeps_entries_after_first_occurrence (sampleTracker [1, 2, 3, 2, 4]) 2).1
        (by decide)⟩,
   ⟨by decide,
      (C6_removeUntil_keeps_entries_after_first_occurrence (sampleTracker [1, 2, 3, 2, 4]) 7).2
        (by decide)⟩⟩

/-- C7: when `msgID` occurs in the record, `removeMessageID` returns true and
removes exactly the entry at its first occurrence: the new record is the old
one with that position cut out (equivalently, with the first occurrence of
`msgID` erased), one entry shorter; when `msgID` does not occur, it returns
false and changes nothing. -/
theorem C7_removeMessageID_erases_first_occurrence {α : Type} [DecidableEq α]
    (c : cumulativeAcksTracker α) (msgID : α) :
    (msgID ∈ c.record →
      ∃ i c2, FirstAt c.record msgID i ∧ removeMessageID c msgID = .ok (c2, true) ∧
        c2.record = c.record.take i ++ c.record.drop (i + 1) ∧
        c2.record = c.record.erase msgID ∧
        c2.record.length + 1 = c.record.length) ∧
    (msgID ∉ c.record → removeMessageID c msgID = .ok (c, false)) := by
  refine ⟨fun hmem => ?_, removeMessageID_of_not_mem c msgID⟩
  obtain ⟨i, hi⟩ := exists_firstAt hmem
  obtain ⟨c2, hrm, hcut⟩ := removeMessageID_of_firstAt c msgID i hi
  have herase := erase_of_firstAt c.record msgID i hi
  refine ⟨i, c2, hi, hrm, hcut, ?_, ?_⟩
  · rw [hcut, herase]
  · rw [hcut, ← herase]
    exact List.length_erase_add_one hmem

theorem C7_witness :
    (2 ∈ (sampleTracker [1, 2, 3, 2, 4]).record ∧
      ∃ i c2, FirstAt (sampleTracker [1, 2, 3, 2, 4]).record 2 i ∧
        removeMessageID (sampleTracker [1, 2, 3, 2, 4]) 2 = .ok (c2, true) ∧
        c2.record = (sampleTracker [1, 2, 3, 2, 4]).record.take i ++
          (sampleTracker [1, 2, 3, 2, 4]).record.drop (i + 1) ∧
        c2.record = (sampleTracker [1, 2, 3, 2, 4]).record.erase 2 ∧
        c2.record.length + 1 = (sampleTracker [1, 2, 3, 2, 4]).record.length) ∧
    (7 ∉ (sampleTracker [1, 2, 3, 2, 4]).record ∧
      removeMessageID (sampleTracker [1, 2, 3, 2, 4]) 7 =
        .ok (sampleTracker [1, 2, 3, 2, 4], false)) :=
  ⟨⟨by decide,
      (C7_removeMessageID_erases_first_occurrence (sampleTracker [1, 2, 3, 2, 4]) 2).1
        (by decide)⟩,
   ⟨by decide,
      (C7_removeMessageID_erases_first_occurrence (sampleTracker [1, 2, 3, 2, 4]) 7).2
        (by decide)⟩⟩

/-! ## Receiving messages -/

theorem step_messagesReceived {α : Type} [DecidableEq α] (ackCumulative : α → Bool)
    (c : cumulativeAcksTracker α) (msgIDs : List α) :
    ∃ c2, process.step ackCumulative c (.messagesReceivedReq msgIDs) = .ok (c2, []) ∧
      c2.record = c.record ++ msgIDs :=
  ⟨_, rfl, Slice.elems_append _ _⟩

/-- C8: processing a `messagesReceivedReq` yields the old record followed by
the given ids in the given order, whatever the capacity of the slice; a tracker
constructed with any capacity hint starts with the empty record, so that after
the request its record is the given sequence, also when the hint is smaller
than its length; construction succeeds for every non-negative hint. -/
theorem C8_messagesReceived_appends_in_order {α : Type} [DecidableEq α]
    (ackCumulative : α → Bool) (msgIDs : List α) :
    (∀ c : cumulativeAcksTracker α,
      ∃ c2, process.step ackCumulative c (.messagesReceivedReq msgIDs) = .ok (c2, []) ∧
        c2.record = c.record ++ msgIDs) ∧
    (∀ (receiverQueueSize : Int) (c0 : cumulativeAcksTracker α),
      newCumulativeAcksTracker receiverQueueSize = .ok c0 →
      c0.record = [] ∧
      ∃ c2, process.step ackCumulative c0 (.messagesReceivedReq msgIDs) = .ok (c2, []) ∧
        c2.record = msgIDs) ∧
    (∀ receiverQueueSize : Int, 0 ≤ receiverQueueSize →
      ∃ c0 : cumulativeAcksTracker α, newCumulativeAcksTracker receiverQueueSize = .ok c0 ∧
        c0.trackedMessageList.cap = receiverQueueSize.toNat) := by
  refine ⟨fun c => step_messagesReceived ackCumulative c msgIDs, ?_, ?_⟩
  · intro n c0 hnew
    have hrec : c0.record = [] := by
      unfold newCumulativeAcksTracker Slice.make at hnew
      by_cases hn : n < 0
      · simp [hn, bind, Except.bind] at hnew
      · simp [hn, bind, Except.bind, pure, Except.pure] at hnew
        rw [← hnew]
        rfl
    refine ⟨hrec, ?_⟩
    obtain ⟨c2, hstep, hc2⟩ := step_messagesReceived ackCumulative c0 msgIDs
    exact ⟨c2, hstep, by simpa [hrec] using hc2⟩
  · intro n hn
    have hn2 : ¬ n < 0 := by omega
    refine ⟨{ trackedMessageList := { elems := [], cap := n.toNat } }, ?_, rfl⟩
    simp [newCumulativeAcksTracker, Slice.make, hn2, bind, Except.bind, pure, Except.pure]

theorem C8_witness :
    newCumulativeAcksTracker 1 =
      .ok ({ trackedMessageList := { elems := [], cap := 1 } } : cumulativeAcksTracker Nat) ∧
    (({ trackedMessageList := { elems := [], cap := 1 } } : cumulativeAcksTracker Nat).record = [] ∧
      ∃ c2, process.step sampleAck
          ({ trackedMessageList := { elems := [], cap := 1 } } : cumulativeAcksTracker Nat)
          (.messagesReceivedReq [1, 2, 3]) = .ok (c2, []) ∧
        c2.record = [1, 2, 3]) :=
  ⟨by decide,
    (C8_messagesReceived_appends_in_order sampleAck [1, 2, 3]).2.1 1
      { trackedMessageList := { elems := [], cap := 1 } } (by decide)⟩

/-! ## The fallback scenario -/

/-- C9: on a record without duplicates, for a candidate at a position `i > 0`
whose `ackCumulative` is false: the query returns the preceding entry `p`;
`removeUntilMessageID p` then leaves the old record from the candidate onwards,
with the candidate first; and the same query on the new record returns nil. -/
theorem C9_fallback_then_truncate_then_nil {α : Type} [DecidableEq α]
    (ackCumulative : α → Bool) (c : cumulativeAcksTracker α) (msgID : α) (i : Nat)
    (hnd : c.record.Nodup) (hi : c.record[i]? = some msgID) (hpos : 0 < i)
    (hac : ackCumulative msgID = false) :
    ∃ p c2, c.record[i - 1]? = some p ∧
      getGreatestCumulativeMessageID ackCumulative c msgID = .ok (some p) ∧
      removeUntilMessageID c p = .ok (c2, true) ∧
      c2.record = c.record.drop i ∧
      c2.record.head? = some msgID ∧
      getGreatestCumulativeMessageID ackCumulative c2 msgID = .ok none := by
  have hfirst := firstAt_of_nodup c.record msgID i hnd hi
  have hlt := firstAt_lt hfirst
  have hlt2 : i - 1 < c.record.length := by omega
  have hp : c.record[i - 1]? = some (c.record[i - 1]) := List.getElem?_eq_getElem hlt2
  have hpfirst := firstAt_of_nodup c.record (c.record[i - 1]) (i - 1) hnd hp
  have hsucc : i - 1 + 1 = i := by omega
  have hrm := removeUntil_of_firstAt c (c.record[i - 1]) (i - 1) hpfirst
  rw [hsucc] at hrm
  have hhead : (c.record.drop i).head? = some msgID := by
    rw [List.head?_drop, hi]
  refine ⟨c.record[i - 1], _, hp, ?_, hrm, rfl, hhead, ?_⟩
  · simp [getGreatest_of_firstAt ackCumulative c msgID i hfirst, hac, hpos, hp]
  · have hfirst2 : FirstAt (c.record.drop i) msgID 0 := by
      refine ⟨?_, by simp⟩
      rw [List.getElem?_drop]
      simpa using hi
    have := getGreatest_of_firstAt ackCumulative
      { trackedMessageList := { elems := c.record.drop i, cap := c.trackedMessageList.cap - i } }
      msgID 0 hfirst2
    simpa [hac] using this

theorem C9_witness :
    (sampleTracker [1, 2, 4]).record.Nodup ∧ (sampleTracker [1, 2, 4]).record[1]? = some 2 ∧
    0 < 1 ∧ sampleAck 2 = false ∧
    ∃ p c2, (sampleTracker [1, 2, 4]).record[1 - 1]? = some p ∧
      getGreatestCumulativeMessageID sampleAck (sampleTracker [1, 2, 4]) 2 = .ok (some p) ∧
      removeUntilMessageID (sampleTracker [1, 2, 4]) p = .ok (c2, true) ∧
      c2.record = (sampleTracker [1, 2, 4]).record.drop 1 ∧
      c2.record.head? = some 2 ∧
      getGreatestCumulativeMessageID sampleAck c2 2 = .ok none :=
  ⟨by decide, by decide, by decide, by decide,
    C9_fallback_then_truncate_then_nil sampleAck (sampleTracker [1, 2, 4]) 2 1
      (by decide) (by decide) (by decide) (by decide)⟩

/-! ## Duplicates -/

/-- C10: for an identifier that occurs in the record, `removeMessageID` returns
true, lowers the number of its occurrences by exactly one and leaves the number
of occurrences of every other identifier unchanged; an identifier recorded
twice still has one occurrence afterwards. -/
theorem C10_removeMessageID_counts {α : Type} [DecidableEq α]
    (c : cumulativeAcksTracker α) (msgID : α) (hmem : msgID ∈ c.record) :
    ∃ c2, removeMessageID c msgID = .ok (c2, true) ∧
      c2.record.count msgID + 1 = c.record.count msgID ∧
      (∀ x, x ≠ msgID → c2.record.count x = c.record.count x) ∧
      (c.record.count msgID = 2 → c2.record.count msgID = 1 ∧ msgID ∈ c2.record) := by
  obtain ⟨c2, hrm, hrec⟩ := removeMessageID_of_mem c msgID hmem
  have hcount : c2.record.count msgID + 1 = c.record.count msgID := by
    rw [hrec, List.count_erase_self]
    have : 0 < c.record.count msgID := List.count_pos_iff.2 hmem
    omega
  refine ⟨c2, hrm, hcount, ?_, ?_⟩
  · intro x hx
    rw [hrec, List.count_erase_of_ne hx]
  · intro h2
    have h1 : c2.record.count msgID = 1 := by omega
    exact ⟨h1, List.count_pos_iff.1 (by omega)⟩

theorem C10_witness :
    2 ∈ (sampleTracker [2, 1, 2]).record ∧
    ∃ c2, removeMessageID (sampleTracker [2, 1, 2]) 2 = .ok (c2, true) ∧
      c2.record.count 2 + 1 = (sampleTracker [2, 1, 2]).record.count 2 ∧
      (∀ x, x ≠ 2 → c2.record.count x = (sampleTracker [2, 1, 2]).record.count x) ∧
      ((sampleTracker [2, 1, 2]).record.count 2 = 2 →
        c2.record.count 2 = 1 ∧ 2 ∈ c2.record) :=
  ⟨by decide, C10_removeMessageID_counts (sampleTracker [2, 1, 2]) 2 (by decide)⟩

/-! ## Totality of the operations -/

theorem removeMessageID_erase {α : Type} [DecidableEq α] (c : cumulativeAcksTracker α)
    (msgID : α) :
    ∃ c2 b, removeMessageID c msgID = .ok (c2, b) ∧ c2.record = c.record.erase msgID := by
  by_cases hmem : msgID ∈ c.record
  · obtain ⟨c2, hrm, hrec⟩ := removeMessageID_of_mem c msgID hmem
    exact ⟨c2, true, hrm, hrec⟩
  · exact ⟨c, false, removeMessageID_of_not_mem c msgID hmem,
      (List.erase_of_not_mem hmem).symm⟩

theorem removeUntil_drop {α : Type} [DecidableEq α] (c : cumulativeAcksTracker α)
    (msgID : α) :
    ∃ c2 b n, removeUntilMessageID c msgID = .ok (c2, b) ∧ c2.record = c.record.drop n := by
  by_cases hmem : msgID ∈ c.record
  · obtain ⟨i, hi⟩ := exists_firstAt hmem
    exact ⟨_, true, i + 1, removeUntil_of_firstAt c msgID i hi, rfl⟩
  · exact ⟨c, false, 0, removeUntil_of_not_mem c msgID hmem, rfl⟩

theorem getGreatest_mem {α : Type} [DecidableEq α] (ackCumulative : α → Bool)
    (c : cumulativeAcksTracker α) (msgID : α) :
    ∃ r, getGreatestCumulativeMessageID ackCumulative c msgID = .ok r ∧
      ∀ x, r = some x → x ∈ c.record := by
  by_cases hmem : msgID ∈ c.record
  · obtain ⟨i, hi⟩ := exists_firstAt hmem
    refine ⟨_, getGreatest_of_firstAt ackCumulative c msgID i hi, ?_⟩
    intro x hx
    by_cases hac : ackCumulative msgID = true
    · simp [hac] at hx
      exact hx ▸ hmem
    · have hac2 : ackCumulative msgID = false := by simpa using hac
      by_cases hpos : 0 < i
      · simp [hac2, hpos] at hx
        exact List.getElem?_mem hx
      · simp [hac2, hpos] at hx
  · exact ⟨none, getGreatest_of_not_mem ackCumulative c msgID hmem, by simp⟩

theorem firstAt_succ_lt_of_getLast? {α : Type} {l : List α} {msgID e : α} {i : Nat}
    (hi : FirstAt l msgID i) (hlast : l.getLast? = some e) (hne : e ≠ msgID) :
    i + 1 < l.length := by
  have hlt := firstAt_lt hi
  by_contra hc
  have hidx : l.length - 1 = i := by omega
  rw [List.getLast?_eq_getElem?, hidx, hi.1] at hlast
  exact hne (Option.some.inj hlast).symm

/-! ## Pruning -/

/-- C11: when the last entry `e` of a non-empty record differs from `msgID`,
the record after `removeMessageID msgID` and the record after
`removeUntilMessageID msgID` are non-empty and still end with `e`; and the
record after `removeUntilMessageID` is always a suffix of the record before. -/
theorem C11_record_is_not_pruned_from_its_tail {α : Type} [DecidableEq α]
    (c : cumulativeAcksTracker α) (msgID : α) :
    (∀ e, c.record.getLast? = some e → e ≠ msgID →
      (∃ c2 b, removeMessageID c msgID = .ok (c2, b) ∧ c2.record ≠ [] ∧
        c2.record.getLast? = some e) ∧
      (∃ c3 b, removeUntilMessageID c msgID = .ok (c3, b) ∧ c3.record ≠ [] ∧
        c3.record.getLast? = some e)) ∧
    (∃ c3 b front, removeUntilMessageID c msgID = .ok (c3, b) ∧
      c.record = front ++ c3.record) := by
  refine ⟨fun e hlast hne => ?_, ?_⟩
  · have hnil : c.record ≠ [] := by
      intro h
      simp [h] at hlast
    by_cases hmem : msgID ∈ c.record
    · obtain ⟨i, hi⟩ := exists_firstAt hmem
      have hlt := firstAt_succ_lt_of_getLast? hi hlast hne
      have hdrop : (c.record.drop (i + 1)).getLast? = some e := by
        rw [List.getLast?_drop, if_neg (by omega), hlast]
      have hdnil : c.record.drop (i + 1) ≠ [] := by
        intro h
        simp [h] at hdrop
      obtain ⟨c2, hrm, hrec⟩ := removeMessageID_of_firstAt c msgID i hi
      refine ⟨⟨c2, true, hrm, ?_, ?_⟩,
        ⟨_, true, removeUntil_of_firstAt c msgID i hi, hdnil, hdrop⟩⟩
      · rw [hrec]
        simp [hdnil]
      · rw [hrec, List.getLast?_append, hdrop]
        rfl
    · exact ⟨⟨c, false, removeMessageID_of_not_mem c msgID hmem, hnil, hlast⟩,
        ⟨c, false, removeUntil_of_not_mem c msgID hmem, hnil, hlast⟩⟩
  · obtain ⟨c3, b, n, hrm, hrec⟩ := removeUntil_drop c msgID
    exact ⟨c3, b, c.record.take n, hrm, by rw [hrec, List.take_append_drop]⟩

theorem C11_witness :
    (sampleTracker [1, 2, 3, 2, 4]).record.getLast? = some 4 ∧ (4 : Nat) ≠ 2 ∧
    (∃ c2 b, removeMessageID (sampleTracker [1, 2, 3, 2, 4]) 2 = .ok (c2, b) ∧
      c2.record ≠ [] ∧ c2.record.getLast? = some 4) ∧
    (∃ c3 b, removeUntilMessageID (sampleTracker [1, 2, 3, 2, 4]) 2 = .ok (c3, b) ∧
      c3.record ≠ [] ∧ c3.record.getLast? = some 4) ∧
    (∃ c3 b front, removeUntilMessageID (sampleTracker [1, 2, 3, 2, 4]) 2 = .ok (c3, b) ∧
      (sampleTracker [1, 2, 3, 2, 4]).record = front ++ c3.record) :=
  have h := C11_record_is_not_pruned_from_its_tail (sampleTracker [1, 2, 3, 2, 4]) 2
  ⟨by decide, by decide, (h.1 4 (by decide) (by decide)).1, (h.1 4 (by decide) (by decide)).2,
    h.2⟩

/-- C12: on a record without duplicates, after `removeUntilMessageID msgID` for
a present `msgID`, every identifier `x` that was at or before `msgID` is absent:
`removeMessageID x` and `removeUntilMessageID x` return false and leave the
state unchanged, and `getGreatestCumulativeMessageID x` returns nil; none of
them panics. -/
theorem C12_acknowledged_ids_are_silently_ignored {α : Type} [DecidableEq α]
    (ackCumulative : α → Bool) (c : cumulativeAcksTracker α) (msgID x : α) (i j : Nat)
    (hnd : c.record.Nodup) (hi : c.record[i]? = some msgID) (hj : c.record[j]? = some x)
    (hji : j ≤ i) :
    ∃ c2, removeUntilMessageID c msgID = .ok (c2, true) ∧ x ∉ c2.record ∧
      removeMessageID c2 x = .ok (c2, false) ∧
      removeUntilMessageID c2 x = .ok (c2, false) ∧
      getGreatestCumulativeMessageID ackCumulative c2 x = .ok none := by
  have hfirst := firstAt_of_nodup c.record msgID i hnd hi
  have hx : x ∈ c.record.take (i + 1) :=
    List.getElem?_mem (by rw [List.getElem?_take_of_lt (show j < i + 1 by omega)]; exact hj)
  have habs : x ∉ c.record.drop (i + 1) :=
    fun h => List.disjoint_take_drop hnd (Nat.le_refl _) hx h
  exact ⟨_, removeUntil_of_firstAt c msgID i hfirst, habs,
    removeMessageID_of_not_mem _ x habs, removeUntil_of_not_mem _ x habs,
    getGreatest_of_not_mem ackCumulative _ x habs⟩

theorem C12_witness :
    (sampleTracker [1, 2, 4, 5]).record.Nodup ∧
    (sampleTracker [1, 2, 4, 5]).record[2]? = some 4 ∧
    (sampleTracker [1, 2, 4, 5]).record[1]? = some 2 ∧ 1 ≤ 2 ∧
    ∃ c2, removeUntilMessageID (sampleTracker [1, 2, 4, 5]) 4 = .ok (c2, true) ∧
      2 ∉ c2.record ∧
      removeMessageID c2 2 = .ok (c2, false) ∧
      removeUntilMessageID c2 2 = .ok (c2, false) ∧
      getGreatestCumulativeMessageID sampleAck c2 2 = .ok none :=
  ⟨by decide, by decide, by decide, by decide,
    C12_acknowledged_ids_are_silently_ignored sampleAck (sampleTracker [1, 2, 4, 5]) 4 2 2 1
      (by decide) (by decide) (by decide) (by decide)⟩

/-! ## The request loop -/

theorem receivedIDs_cons {α : Type} (req : Request α) (reqs : List (Request α)) :
    receivedIDs (req :: reqs) = receivedIDs [req] ++ receivedIDs reqs := by
  cases req <;> simp [receivedIDs]

theorem step_sublist {α : Type} [DecidableEq α] (ackCumulative : α → Bool)
    (c : cumulativeAcksTracker α) (req : Request α) :
    ∃ c2 replies, process.step ackCumulative c req = .ok (c2, replies) ∧
      List.Sublist c2.record (c.record ++ receivedIDs [req]) ∧
      ∀ x, some x ∈ replies → x ∈ c.record := by
  cases req with
  | messagesReceivedReq msgIDs =>
    obtain ⟨c2, hstep, hrec⟩ := step_messagesReceived ackCumulative c msgIDs
    refine ⟨c2, [], hstep, ?_, by simp⟩
    simp [hrec, receivedIDs]
  | ackSentReq msgID =>
    obtain ⟨c2, b, hrm, hrec⟩ := removeMessageID_erase c msgID
    refine ⟨c2, [], ?_, ?_, by simp⟩
    · simp [process.step, hrm, bind, Except.bind, pure, Except.pure]
    · simpa [hrec, receivedIDs] using List.erase_sublist msgID c.record
  | cumulativeAckSentReq msgID =>
    obtain ⟨c2, b, n, hrm, hrec⟩ := removeUntil_drop c msgID
    refine ⟨c2, [], ?_, ?_, by simp⟩
    · simp [process.step, hrm, bind, Except.bind, pure, Except.pure]
    · simpa [hrec, receivedIDs] using List.drop_sublist n c.record
  | getCumulativeMessageIDReq msgID =>
    obtain ⟨r, hr, hmem⟩ := getGreatest_mem ackCumulative c msgID
    refine ⟨c, [r], ?_, by simp [receivedIDs], ?_⟩
    · simp [process.step, hr, bind, Except.bind, pure, Except.pure]
    · intro x hx
      exact hmem x (List.mem_singleton.1 hx).symm
  | other =>
    exact ⟨c, [], rfl, by simp [receivedIDs], by simp⟩

theorem process_cons {α : Type} [DecidableEq α] (ackCumulative : α → Bool)
    (c c1 c2 : cumulativeAcksTracker α) (req : Request α) (reqs : List (Request α))
    (r1 r2 : List (Option α))
    (hstep : process.step ackCumulative c req = .ok (c1, r1))
    (hrest : process ackCumulative c1 reqs = .ok (c2, r2)) :
    process ackCumulative c (req :: reqs) = .ok (c2, r1 ++ r2) := by
  simp [process, hstep, hrest, bind, Except.bind, pure, Except.pure]

theorem process_sublist {α : Type} [DecidableEq α] (ackCumulative : α → Bool)
    (reqs : List (Request α)) (c : cumulativeAcksTracker α) (base : List α)
    (hbase : List.Sublist c.record base) :
    ∃ c2 replies, process ackCumulative c reqs = .ok (c2, replies) ∧
      List.Sublist c2.record (base ++ receivedIDs reqs) ∧
      ∀ x, some x ∈ replies → x ∈ base ++ receivedIDs reqs := by
  induction reqs generalizing c base with
  | nil => exact ⟨c, [], rfl, by simpa [receivedIDs] using hbase, by simp⟩
  | cons req reqs ih =>
    obtain ⟨c1, r1, hstep, hsub1, hmem1⟩ := step_sublist ackCumulative c req
    have hbase1 : List.Sublist c1.record (base ++ receivedIDs [req]) :=
      hsub1.trans (List.Sublist.append hbase (List.Sublist.refl _))
    obtain ⟨c2, r2, hrest, hsub2, hmem2⟩ := ih c1 (base ++ receivedIDs [req]) hbase1
    refine ⟨c2, r1 ++ r2, process_cons ackCumulative c c1 c2 req reqs r1 r2 hstep hrest, ?_, ?_⟩
    · rw [receivedIDs_cons, ← List.append_assoc]
      exact hsub2
    · intro x hx
      rw [receivedIDs_cons, ← List.append_assoc]
      rcases List.mem_append.1 hx with h | h
      · exact List.mem_append_left _ (List.mem_append_left _ (hbase.subset (hmem1 x h)))
      · exact hmem2 x h

theorem process_singletons {α : Type} [DecidableEq α] (ackCumulative : α → Bool)
    (order : List α) (c : cumulativeAcksTracker α) :
    ∃ c2, process ackCumulative c (order.map (fun x => Request.messagesReceivedReq [x])) =
        .ok (c2, []) ∧
      c2.record = c.record ++ order := by
  induction order generalizing c with
  | nil => exact ⟨c, rfl, by simp⟩
  | cons x rest ih =>
    obtain ⟨c1, hstep, hrec1⟩ := step_messagesReceived ackCumulative c [x]
    obtain ⟨c2, hrest, hrec2⟩ := ih c1
    refine ⟨c2, ?_, by rw [hrec2, hrec1]; simp⟩
    have := process_cons ackCumulative c c1 c2 (.messagesReceivedReq [x])
      (rest.map (fun x => Request.messagesReceivedReq [x])) [] [] hstep hrest
    simpa using this

/-- C13: starting from the empty record, for every sequence of requests
processed in order (hence after every initial segment of a longer sequence),
the loop does not panic, the record is a sublist (same relative order, nothing
invented) of the concatenation of the id sequences received, and every
identifier sent as a reply is one of the received ids. -/
theorem C13_record_is_sublist_of_received_ids {α : Type} [DecidableEq α]
    (ackCumulative : α → Bool) (c0 : cumulativeAcksTracker α) (reqs : List (Request α))
    (hempty : c0.record = []) :
    ∃ c replies, process ackCumulative c0 reqs = .ok (c, replies) ∧
      List.Sublist c.record (receivedIDs reqs) ∧
      ∀ x, some x ∈ replies → x ∈ receivedIDs reqs := by
  have := process_sublist ackCumulative reqs c0 [] (by simp [hempty])
  simpa using this

theorem C13_witness :
    (sampleTracker []).record = [] ∧
    ∃ c replies,
      process sampleAck (sampleTracker [])
        [.messagesReceivedReq [1, 2], .getCumulativeMessageIDReq 2, .messagesReceivedReq [4],
          .cumulativeAckSentReq 1, .ackSentReq 4, .other] = .ok (c, replies) ∧
      List.Sublist c.record
        (receivedIDs [.messagesReceivedReq [1, 2], .getCumulativeMessageIDReq 2,
          .messagesReceivedReq [4], .cumulativeAckSentReq 1, .ackSentReq 4, .other]) ∧
      ∀ x, some x ∈ replies →
        x ∈ receivedIDs [.messagesReceivedReq [1, 2], .getCumulativeMessageIDReq 2,
          .messagesReceivedReq [4], .cumulativeAckSentReq 1, .ackSentReq 4, .other] :=
  ⟨rfl, C13_record_is_sublist_of_received_ids sampleAck (sampleTracker []) _ rfl⟩

/-- C14: with the requests applied one at a time in their arrival order, for
every list of distinct ids and every arrival order of the single-id
`messagesReceivedReq` requests carrying them, processing all of them from the
empty record yields the ids in arrival order: a permutation of the ids, each
occurring exactly once, of the same length. -/
theorem C14_single_id_requests_in_any_order {α : Type} [DecidableEq α]
    (ackCumulative : α → Bool) (c0 : cumulativeAcksTracker α) (ids order : List α)
    (hempty : c0.record = []) (hnd : ids.Nodup) (hperm : order.Perm ids) :
    ∃ c, process ackCumulative c0 (order.map (fun x => Request.messagesReceivedReq [x])) =
        .ok (c, []) ∧
      c.record = order ∧ c.record.Perm ids ∧ c.record.Nodup ∧
      c.record.length = ids.length ∧
      (∀ x, x ∈ ids → c.record.count x = 1) ∧ (∀ x, x ∉ ids → c.record.count x = 0) := by
  obtain ⟨c, hproc, hrec⟩ := process_singletons ackCumulative order c0
  have hrec2 : c.record = order := by simpa [hempty] using hrec
  have hnd2 : order.Nodup := hperm.nodup_iff.2 hnd
  refine ⟨c, hproc, hrec2, hrec2 ▸ hperm, hrec2 ▸ hnd2, by rw [hrec2]; exact hperm.length_eq,
    ?_, ?_⟩
  · intro x hx
    rw [hrec2]
    exact List.count_eq_one_of_mem hnd2 (hperm.mem_iff.2 hx)
  · intro x hx
    rw [hrec2]
    exact List.count_eq_zero_of_not_mem (fun h => hx (hperm.mem_iff.1 h))

theorem C14_witness :
    (sampleTracker []).record = [] ∧ ([1, 2, 4] : List Nat).Nodup ∧
    ([4, 1, 2] : List Nat).Perm [1, 2, 4] ∧
    ∃ c, process sampleAck (sampleTracker [])
        (([4, 1, 2] : List Nat).map (fun x => Request.messagesReceivedReq [x])) = .ok (c, []) ∧
      c.record = [4, 1, 2] ∧ c.record.Perm [1, 2, 4] ∧ c.record.Nodup ∧
      c.record.length = ([1, 2, 4] : List Nat).length ∧
      (∀ x, x ∈ ([1, 2, 4] : List Nat) → c.record.count x = 1) ∧
      (∀ x, x ∉ ([1, 2, 4] : List Nat) → c.record.count x = 0) :=
  ⟨rfl, by decide, by decide,
    C14_single_id_requests_in_any_order sampleAck (sampleTracker []) [1, 2, 4] [4, 1, 2]
      rfl (by decide) (by decide)⟩

/-! ## Bounds of the scan result -/

theorem getMessageIDIndex_cases {α : Type} [DecidableEq α] (c : cumulativeAcksTracker α)
    (msgID : α) :
    (msgID ∉ c.record ∧ getMessageIDIndex c msgID = -1) ∨
    (∃ i : Nat, FirstAt c.record msgID i ∧ getMessageIDIndex c msgID = (i : Int)) := by
  by_cases hmem : msgID ∈ c.record
  · obtain ⟨i, hi⟩ := exists_firstAt hmem
    exact Or.inr ⟨i, hi, getMessageIDIndex_of_firstAt c msgID i hi⟩
  · exact Or.inl ⟨hmem, getMessageIDIndex_of_not_mem c msgID hmem⟩

/-- C15: the index computed by `getMessageIDIndex` is `-1` or lies in
`[0, len)`; when it is not `-1` the slice expressions `[:idx]`, `[idx+1:]` and
the element accesses `[idx]`, and `[idx-1]` when `idx > 0`, are in bounds; and
`removeMessageID`, `removeUntilMessageID` and `getGreatestCumulativeMessageID`
return a result without panicking on every record and every id. -/
theorem C15_operations_stay_in_bounds {α : Type} [DecidableEq α]
    (ackCumulative : α → Bool) (c : cumulativeAcksTracker α) (msgID : α) :
    (getMessageIDIndex c msgID = -1 ∨
      (0 ≤ getMessageIDIndex c msgID ∧
        getMessageIDIndex c msgID < c.trackedMessageList.len)) ∧
    (getMessageIDIndex c msgID ≠ -1 →
      (∃ s, c.trackedMessageList.sliceTo (getMessageIDIndex c msgID) = .ok s) ∧
      (∃ s, c.trackedMessageList.sliceFrom (getMessageIDIndex c msgID + 1) = .ok s) ∧
      (∃ x, c.trackedMessageList.index (getMessageIDIndex c msgID) = .ok x) ∧
      (getMessageIDIndex c msgID > 0 →
        ∃ x, c.trackedMessageList.index (getMessageIDIndex c msgID - 1) = .ok x)) ∧
    (∃ r, removeMessageID c msgID = .ok r) ∧
    (∃ r, removeUntilMessageID c msgID = .ok r) ∧
    (∃ r, getGreatestCumulativeMessageID ackCumulative c msgID = .ok r) := by
  obtain ⟨c2, b2, hrm, _⟩ := removeMessageID_erase c msgID
  obtain ⟨c3, b3, n, hru, _⟩ := removeUntil_drop c msgID
  obtain ⟨r, hgr, _⟩ := getGreatest_mem ackCumulative c msgID
  refine ⟨?_, ?_, ⟨_, hrm⟩, ⟨_, hru⟩, ⟨_, hgr⟩⟩
  · rcases getMessageIDIndex_cases c msgID with ⟨_, h⟩ | ⟨i, hi, h⟩
    · exact Or.inl h
    · have hlt : i < c.trackedMessageList.elems.length := firstAt_lt hi
      right
      rw [h]
      simp only [Slice.len]
      omega
  · intro hne
    rcases getMessageIDIndex_cases c msgID with ⟨_, h⟩ | ⟨i, hi, h⟩
    · exact absurd h hne
    · have hlt : i < c.trackedMessageList.elems.length := firstAt_lt hi
      rw [h]
      refine ⟨⟨_, Slice.sliceTo_of_le c.trackedMessageList i (by omega)⟩, ?_,
        ⟨_, Slice.index_of_getElem? c.trackedMessageList i msgID hi.1⟩, ?_⟩
      · have hcast : ((i : Int) + 1) = ((i + 1 : Nat) : Int) := by omega
        rw [hcast]
        exact ⟨_, Slice.sliceFrom_of_le c.trackedMessageList (i + 1) (by omega)⟩
      · intro hpos
        have hlt2 : i - 1 < c.trackedMessageList.elems.length := by omega
        have hcast : ((i : Int) - 1) = ((i - 1 : Nat) : Int) := by omega
        rw [hcast]
        exact ⟨_, Slice.index_of_getElem? c.trackedMessageList (i - 1) _
          (List.getElem?_eq_getElem hlt2)⟩

theorem C15_witness :
    getMessageIDIndex (sampleTracker [1, 2, 3]) 3 ≠ -1 ∧
    getMessageIDIndex (sampleTracker [1, 2, 3]) 3 > 0 ∧
    (∃ s, (sampleTracker [1, 2, 3]).trackedMessageList.sliceTo
      (getMessageIDIndex (sampleTracker [1, 2, 3]) 3) = .ok s) ∧
    (∃ s, (sampleTracker [1, 2, 3]).trackedMessageList.sliceFrom
      (getMessageIDIndex (sampleTracker [1, 2, 3]) 3 + 1) = .ok s) ∧
    (∃ x, (sampleTracker [1, 2, 3]).trackedMessageList.index
      (getMessageIDIndex (sampleTracker [1, 2, 3]) 3) = .ok x) ∧
    (∃ x, (sampleTracker [1, 2, 3]).trackedMessageList.index
      (getMessageIDIndex (sampleTracker [1, 2, 3]) 3 - 1) = .ok x) :=
  have h := (C15_operations_stay_in_bounds sampleAck (sampleTracker [1, 2, 3]) 3).2.1
    (by decide)
  ⟨by decide, by decide, h.1, h.2.1, h.2.2.1, h.2.2.2 (by decide)⟩

/-- C16: `getMessageIDIndex` returns `-1` exactly when no entry of the record
equals `msgID`; otherwise it returns a position `i` whose entry equals `msgID`
while no entry at a position before `i` does (the first matching position). -/
theorem C16_getMessageIDIndex_is_first_match {α : Type} [DecidableEq α]
    (c : cumulativeAcksTracker α) (msgID : α) :
    (getMessageIDIndex c msgID = -1 ↔ msgID ∉ c.record) ∧
    (msgID ∈ c.record →
      ∃ i : Nat, getMessageIDIndex c msgID = (i : Int) ∧ c.record[i]? = some msgID ∧
        ∀ j, j < i → c.record[j]? ≠ some msgID) := by
  rcases getMessageIDIndex_cases c msgID with ⟨hmem, h⟩ | ⟨i, hi, h⟩
  · exact ⟨⟨fun _ => hmem, fun _ => h⟩, fun hm => absurd hm hmem⟩
  · have hm : msgID ∈ c.record := firstAt_mem hi
    refine ⟨⟨fun h1 => ?_, fun hn => absurd hm hn⟩, fun _ => ⟨i, h, hi.1, ?_⟩⟩
    · rw [h] at h1
      omega
    · intro j hj hjm
      exact hi.2 (List.getElem?_mem (by rw [List.getElem?_take_of_lt hj]; exact hjm))

theorem C16_witness :
    2 ∈ (sampleTracker [1, 2, 3, 2]).record ∧
    ∃ i : Nat, getMessageIDIndex (sampleTracker [1, 2, 3, 2]) 2 = (i : Int) ∧
      (sampleTracker [1, 2, 3, 2]).record[i]? = some 2 ∧
      ∀ j, j < i → (sampleTracker [1, 2, 3, 2]).record[j]? ≠ some 2 :=
  ⟨by decide, (C16_getMessageIDIndex_is_first_match (sampleTracker [1, 2, 3, 2]) 2).2
    (by decide)⟩

/-! ## Effects of a request -/

/-- C17: processing a `getCumulativeMessageIDReq` leaves the state unchanged
and sends exactly one reply, the result of `getGreatestCumulativeMessageID`;
processing a `messagesReceivedReq`, an `ackSentReq` or a `cumulativeAckSentReq`
sends no reply; a request of any other type changes nothing and sends no
reply. -/
theorem C17_only_queries_reply_and_queries_keep_the_record {α : Type} [DecidableEq α]
    (ackCumulative : α → Bool) (c : cumulativeAcksTracker α) :
    (∀ msgID, ∃ r,
      process.step ackCumulative c (.getCumulativeMessageIDReq msgID) = .ok (c, [r]) ∧
      getGreatestCumulativeMessageID ackCumulative c msgID = .ok r) ∧
    (∀ msgIDs, ∃ c2,
      process.step ackCumulative c (.messagesReceivedReq msgIDs) = .ok (c2, [])) ∧
    (∀ msgID, ∃ c2, process.step ackCumulative c (.ackSentReq msgID) = .ok (c2, [])) ∧
    (∀ msgID, ∃ c2,
      process.step ackCumulative c (.cumulativeAckSentReq msgID) = .ok (c2, [])) ∧
    process.step ackCumulative c .other = .ok (c, []) := by
  refine ⟨fun msgID => ?_, fun msgIDs => ?_, fun msgID => ?_, fun msgID => ?_, rfl⟩
  · obtain ⟨r, hr, _⟩ := getGreatest_mem ackCumulative c msgID
    exact ⟨r, by simp [process.step, hr, bind, Except.bind, pure, Except.pure], hr⟩
  · obtain ⟨c2, hstep, _⟩ := step_messagesReceived ackCumulative c msgIDs
    exact ⟨c2, hstep⟩
  · obtain ⟨c2, b, hrm, _⟩ := removeMessageID_erase c msgID
    exact ⟨c2, by simp [process.step, hrm, bind, Except.bind, pure, Except.pure]⟩
  · obtain ⟨c2, b, n, hrm, _⟩ := removeUntil_drop c msgID
    exact ⟨c2, by simp [process.step, hrm, bind, Except.bind, pure, Except.pure]⟩

/-! ## Algebra of acknowledgments -/

/-- C18: for every record and every two ids `a` and `b`, `removeMessageID a`
followed by `removeMessageID b` and `removeMessageID b` followed by
`removeMessageID a` both succeed and yield the same record. -/
theorem C18_individual_acks_commute {α : Type} [DecidableEq α]
    (c : cumulativeAcksTracker α) (a b : α) :
    ∃ c1 c2 d1 d2 r1 r2 r3 r4,
      removeMessageID c a = .ok (c1, r1) ∧ removeMessageID c1 b = .ok (c2, r2) ∧
      removeMessageID c b = .ok (d1, r3) ∧ removeMessageID d1 a = .ok (d2, r4) ∧
      c2.record = d2.record := by
  obtain ⟨c1, r1, h1, e1⟩ := removeMessageID_erase c a
  obtain ⟨c2, r2, h2, e2⟩ := removeMessageID_erase c1 b
  obtain ⟨d1, r3, h3, e3⟩ := removeMessageID_erase c b
  obtain ⟨d2, r4, h4, e4⟩ := removeMessageID_erase d1 a
  exact ⟨c1, c2, d1, d2, r1, r2, r3, r4, h1, h2, h3, h4,
    by rw [e2, e1, e4, e3, List.erase_comm]⟩

/-- C19: whenever `getGreatestCumulativeMessageID` returns an identifier, the
candidate occurs in the record, and with its first occurrence at position `i`
the returned identifier is the entry at position `i` or, with `i > 0`, the
entry at position `i - 1`; in particular it is an entry of the record. -/
theorem C19_result_is_at_candidate_or_one_before {α : Type} [DecidableEq α]
    (ackCumulative : α → Bool) (c : cumulativeAcksTracker α) (msgID r : α)
    (hret : getGreatestCumulativeMessageID ackCumulative c msgID = .ok (some r)) :
    ∃ i, FirstAt c.record msgID i ∧
      (c.record[i]? = some r ∨ (0 < i ∧ c.record[i - 1]? = some r)) ∧
      r ∈ c.record := by
  by_cases hmem : msgID ∈ c.record
  · obtain ⟨i, hi⟩ := exists_firstAt hmem
    rw [getGreatest_of_firstAt ackCumulative c msgID i hi] at hret
    by_cases hac : ackCumulative msgID = true
    · simp [hac] at hret
      subst hret
      exact ⟨i, hi, Or.inl hi.1, hmem⟩
    · have hac2 : ackCumulative msgID = false := by simpa using hac
      by_cases hpos : 0 < i
      · simp [hac2, hpos] at hret
        exact ⟨i, hi, Or.inr ⟨hpos, hret⟩, List.getElem?_mem hret⟩
      · simp [hac2, hpos] at hret
  · rw [getGreatest_of_not_mem ackCumulative c msgID hmem] at hret
    simp at hret

theorem C19_witness :
    getGreatestCumulativeMessageID sampleAck (sampleTracker [1, 2, 3]) 3 = .ok (some 2) ∧
    ∃ i, FirstAt (sampleTracker [1, 2, 3]).record 3 i ∧
      ((sampleTracker [1, 2, 3]).record[i]? = some 2 ∨
        (0 < i ∧ (sampleTracker [1, 2, 3]).record[i - 1]? = some 2)) ∧
      2 ∈ (sampleTracker [1, 2, 3]).record :=
  ⟨by decide,
    C19_result_is_at_candidate_or_one_before sampleAck (sampleTracker [1, 2, 3]) 3 2
      (by decide)⟩

/-- C20: on a record without duplicates, the record after `removeMessageID
msgID` and the record after `removeUntilMessageID msgID` have no duplicates
and do not contain `msgID`, so that the same operation applied again returns
false and changes nothing. -/
theorem C20_acknowledgment_preserves_nodup {α : Type} [DecidableEq α]
    (c : cumulativeAcksTracker α) (msgID : α) (hnd : c.record.Nodup) :
    (∃ c2 b, removeMessageID c msgID = .ok (c2, b) ∧ c2.record.Nodup ∧
      msgID ∉ c2.record ∧ removeMessageID c2 msgID = .ok (c2, false)) ∧
    (∃ c3 b, removeUntilMessageID c msgID = .ok (c3, b) ∧ c3.record.Nodup ∧
      msgID ∉ c3.record ∧ removeUntilMessageID c3 msgID = .ok (c3, false)) := by
  constructor
  · obtain ⟨c2, b, hrm, hrec⟩ := removeMessageID_erase c msgID
    have habs : msgID ∉ c2.record := by
      rw [hrec]
      exact hnd.not_mem_erase
    exact ⟨c2, b, hrm, by rw [hrec]; exact hnd.erase msgID, habs,
      removeMessageID_of_not_mem c2 msgID habs⟩
  · by_cases hmem : msgID ∈ c.record
    · obtain ⟨i, hi⟩ := exists_firstAt hmem
      have hin : msgID ∈ c.record.take (i + 1) :=
        List.getElem?_mem
          (by rw [List.getElem?_take_of_lt (show i < i + 1 by omega)]; exact hi.1)
      have habs : msgID ∉ c.record.drop (i + 1) :=
        fun h => List.disjoint_take_drop hnd (Nat.le_refl _) hin h
      exact ⟨_, true, removeUntil_of_firstAt c msgID i hi,
        (List.drop_sublist (i + 1) c.record).nodup hnd, habs,
        removeUntil_of_not_mem _ msgID habs⟩
    · exact ⟨c, false, removeUntil_of_not_mem c msgID hmem, hnd, hmem,
        removeUntil_of_not_mem c msgID hmem⟩

theorem C20_witness :
    (sampleTracker [1, 2, 4, 5]).record.Nodup ∧
    (∃ c2 b, removeMessageID (sampleTracker [1, 2, 4, 5]) 2 = .ok (c2, b) ∧ c2.record.Nodup ∧
      2 ∉ c2.record ∧ removeMessageID c2 2 = .ok (c2, false)) ∧
    (∃ c3 b, removeUntilMessageID (sampleTracker [1, 2, 4, 5]) 2 = .ok (c3, b) ∧
      c3.record.Nodup ∧ 2 ∉ c3.record ∧ removeUntilMessageID c3 2 = .ok (c3, false)) :=
  ⟨by decide, C20_acknowledgment_preserves_nodup (sampleTracker [1, 2, 4, 5]) 2 (by decide)⟩

end Pulsar
